import Mathlib

/-!
The `txcount` command: leader-slot resolution, producer loop and fetch worker.

A shallow embedding of `cmd/rpc/txcount/txcount.go`.

* `uint64` values are natural numbers, arithmetic on them is taken modulo `2 ^ 64`.
* One iteration of the worker goroutine is a function from the value its receive yields to
  the list of output actions it performs and the way control leaves the iteration.
* `main` and its pool of workers are a transition system: the `work` channel is unbuffered,
  so a send of the producer loop happens only together with the receive of a worker.
-/

namespace Txcount

/-! ## Unsigned 64-bit arithmetic -/

/-- Number of values of a Go `uint64`. -/
def u64 : Nat := 2 ^ 64

/-- Go `a - b` on `uint64` operands: the difference modulo `2 ^ 64`. -/
def subU64 (a b : Nat) : Nat := (a + (u64 - b % u64)) % u64

/-- Go `a + b` on `uint64` operands: the sum modulo `2 ^ 64`. -/
def addU64 (a b : Nat) : Nat := (a + b) % u64

/-! ## Epoch snapshot and offset -/

/-- The fields of `rpc.GetEpochInfoResult` that `main` reads, all `uint64`. -/
structure EpochInfo where
  AbsoluteSlot : Nat
  SlotIndex : Nat
  Epoch : Nat
deriving DecidableEq, Repr

/-- Well-formed `EpochInfo`: every field is a `uint64` value. -/
def EpochInfo.WF (e : EpochInfo) : Prop :=
  e.AbsoluteSlot < u64 ∧ e.SlotIndex < u64 ∧ e.Epoch < u64

/-- Line 58: `offset := epoch.AbsoluteSlot - epoch.SlotIndex`. -/
def offset (epoch : EpochInfo) : Nat := subU64 epoch.AbsoluteSlot epoch.SlotIndex

/-- Line 130 applied to a whole schedule entry: `slot + offset` for each relative index. -/
def ownedSlots (offset : Nat) (slots : List Nat) : List Nat :=
  slots.map (fun slot => addU64 slot offset)

/-! ## Producer loop body (lines 129-139) -/

/-- The lower-bound test of line 131, `*flagAfter > 0 && slot < *flagAfter`. -/
def belowAfter (flagAfter slot : Nat) : Bool :=
  decide (flagAfter > 0) && decide (slot < flagAfter)

/-- What one iteration of `for _, slot := range slots` does. -/
inductive LoopStep where
  /-- Line 132, `continue`. -/
  | skip
  /-- Line 135, `break`. -/
  | stop
  /-- Line 138, `work <- slot`. -/
  | send (slot : Nat)
deriving DecidableEq, Repr

/-- Lines 130-138 for the schedule index `slot`. -/
def loopBody (flagAfter current offset slot : Nat) : LoopStep :=
  let slot := addU64 slot offset
  if belowAfter flagAfter slot then
    .skip
  else if slot > current then
    .stop
  else
    .send slot

/-- The sends the loop has ahead of it on the indices `slots`, in order, were each of them
to find a receiver. Whether they do is settled by `step` below. -/
def sendPlan (flagAfter current offset : Nat) : List Nat → List Nat
  | [] => []
  | slot :: rest =>
    match loopBody flagAfter current offset slot with
    | .skip => sendPlan flagAfter current offset rest
    | .stop => []
    | .send slot => slot :: sendPlan flagAfter current offset rest

/-! ## The slot filter in the words of the specification -/

/-- The per-slot predicate of the slot filter: `(lower == 0 or s >= lower) and s <= upper`. -/
def inBounds (lower upper s : Nat) : Bool :=
  decide ((lower = 0 ∨ s ≥ lower) ∧ s ≤ upper)

/-- A slot is discarded by the lower-bound test: `lower > 0 and s < lower`. -/
def discarded (lower s : Nat) : Bool :=
  decide (lower > 0 ∧ s < lower)

/-- A slot that is not discarded by the lower-bound test and is greater than `upper`. -/
def isCutoff (lower upper s : Nat) : Bool :=
  decide (¬ (lower > 0 ∧ s < lower) ∧ s > upper)

/-- The slots before the first cutoff slot that are not discarded, in original order. -/
def beforeCutoff (lower upper : Nat) (owned : List Nat) : List Nat :=
  (owned.takeWhile (fun s => !isCutoff lower upper s)).filter (fun s => !discarded lower s)

/-! ## Block fetch results -/

/-- A `*jsonrpc.RPCError`; only its `Code` decides anything in `main`. -/
structure RPCError where
  Code : Int
  Message : String
deriving DecidableEq, Repr

/-- A non-nil Go `error` as `errors.As(err, &rpcErr)` sees it: either its chain holds a
`*jsonrpc.RPCError`, which `errors.As` stores in `rpcErr`, or it holds none. -/
inductive GoError where
  | rpc (rpcErr : RPCError)
  | other (msg : String)
deriving DecidableEq, Repr

/-- The call `errors.As(err, &rpcErr)`: `some rpcErr` when it reports `true`. -/
def errorsAs : GoError → Option RPCError
  | .rpc rpcErr => some rpcErr
  | .other _ => none

/-- An element of `block.Transactions`; `main` only counts them. -/
structure TransactionWithMeta where
  Slot : Nat
deriving DecidableEq, Repr

/-- The fields of `rpc.GetBlockResult` that `main` reads. `BlockTime` is a pointer to a
count of Unix seconds (`main` dereferences it), `none` being the nil pointer. -/
structure GetBlockResult where
  BlockTime : Option Int
  Transactions : List TransactionWithMeta
deriving DecidableEq, Repr

/-- What `r.GetBlock(ctx, slot)` hands back: the `block` pointer and the `err` value, each
of which may be nil. -/
structure FetchResult where
  block : Option GetBlockResult
  err : Option GoError
deriving DecidableEq, Repr

/-! ## Output -/

/-- A Go `time.Time`: the instant, as seconds and nanoseconds since the Unix epoch, and the
offset of its location at that instant, in seconds east of UTC. -/
structure Time where
  sec : Int
  nsec : Int
  zone : Int
deriving DecidableEq, Repr

/-- The call `time.Unix(sec, 0)`: the instant `sec` in the location `time.Local`, whose
offset at each instant is `localOffset`. -/
def timeUnix (localOffset : Int → Int) (sec : Int) : Time :=
  { sec := sec, nsec := 0, zone := localOffset sec }

/-- The calendar year of the day `days` days after 1970-01-01, found as the `time` package
does: by cycles of 400, 100, 4 and 1 years counted from 0001-01-01. -/
def civilYear (days : Int) : Int :=
  let d := days + 719162
  let n400 := d / 146097
  let d1 := d % 146097
  let n100 := d1 / 36524
  let n100 := n100 - n100 / 4
  let d2 := d1 - 36524 * n100
  let n4 := d2 / 1461
  let d3 := d2 - 1461 * n4
  let n1 := d3 / 365
  let n1 := n1 - n1 / 4
  400 * n400 + 100 * n100 + 4 * n4 + n1 + 1

/-- The method `t.Year()`: the calendar year of `t` in its location. -/
def Time.Year (t : Time) : Int := civilYear ((t.sec + t.zone) / 86400)

/-- Whether `t.MarshalJSON()` returns no error: the year is within `0..9999` and the hour of
the zone offset, as RFC 3339 prints it, is below `24`. -/
def Time.marshals (t : Time) : Bool :=
  decide (0 ≤ t.Year) && decide (t.Year ≤ 9999) && decide (t.zone.natAbs / 60 / 60 < 24)

/-- Lines 30-34: the record encoded as JSON on standard output. -/
structure logLine where
  TS : Time
  Slot : Nat
  NumTx : Int
deriving DecidableEq, Repr

/-- Whether `json.NewEncoder(os.Stdout).Encode(l)` writes the encoding of `l`. The encoder
marshals the whole value first and writes nothing when that fails; of the three fields only
`TS` can fail to marshal. -/
def logLine.encodes (l : logLine) : Bool := l.TS.marshals

/-- The two destinations written to. -/
inductive Stream where
  | Stdout
  | Stderr
deriving DecidableEq, Repr

/-- What a single write carries. -/
inductive Line where
  /-- Line 104: `"slot=%d skipped=true\n"`. -/
  | skipped (slot : Nat)
  /-- Line 112: `"slot=%d empty=true\n"`. -/
  | empty (slot : Nat)
  /-- Line 120: the JSON encoding of a `logLine`, written by `Encode`. -/
  | record (l : logLine)
  /-- Line 123: `"https://explorer.solana.com/block/%d\n"`. -/
  | blockRef (slot : Nat)
deriving DecidableEq, Repr

/-- The text of the formatted lines (the JSON record is kept structured). -/
def Line.text : Line → Option String
  | .skipped slot => some ("slot=" ++ toString slot ++ " skipped=true\n")
  | .empty slot => some ("slot=" ++ toString slot ++ " empty=true\n")
  | .record _ => none
  | .blockRef slot => some ("https://explorer.solana.com/block/" ++ toString slot ++ "\n")

/-- The actions of a worker on the shared mutex `out` and on the output streams. -/
inductive Action where
  | Lock
  | Unlock
  | Write (stream : Stream) (line : Line)
deriving DecidableEq, Repr

/-- How control leaves one iteration of the worker's `for` loop. -/
inductive Control where
  /-- The iteration ends (by `continue` or by reaching the end of the body): the worker
  receives again. -/
  | next
  /-- The worker ran `wg.Done(); return`. -/
  | done
  /-- A nil pointer was dereferenced: the runtime aborts the process. -/
  | fault
deriving DecidableEq, Repr

/-! ## Worker goroutine (lines 92-125) -/

/-- Line 102: `errors.As(err, &rpcErr) && (rpcErr.Code == -32007 || rpcErr.Code == -32004)`. -/
def isSkipError (err : GoError) : Bool :=
  match errorsAs err with
  | some rpcErr => rpcErr.Code == -32007 || rpcErr.Code == -32004
  | none => false

/-- Lines 98-124: the body of the loop after the `slot == 0` test, for the received `slot`.
`GetBlock` is the remote call of line 99, taken to return, and `localOffset` the offset of
the local time zone. Line 120 drops the error of `Encode`, so a record that does not
marshal leaves nothing written between `Lock` and `Unlock`. -/
def handleSlot (localOffset : Int → Int) (flagCount : Bool) (GetBlock : Nat → FetchResult)
    (slot : Nat) : List Action × Control :=
  if flagCount then
    let r := GetBlock slot
    let skip :=
      match r.err with
      | some err => isSkipError err
      | none => false
    if skip then
      ([.Lock, .Write .Stderr (.skipped slot), .Unlock], .next)
    else
      match r.block with
      | none => ([.Lock, .Write .Stderr (.empty slot), .Unlock], .next)
      | some block =>
        match block.BlockTime with
        | none => ([], .fault)
        | some sec =>
          let bt := timeUnix localOffset sec
          let l : logLine := { TS := bt, Slot := slot, NumTx := block.Transactions.length }
          if l.encodes then
            ([.Lock, .Write .Stdout (.record l), .Unlock], .next)
          else
            ([.Lock, .Unlock], .next)
  else
    ([.Write .Stdout (.blockRef slot)], .next)

/-- Line 93, `slot := <-work`: a value sent on the open channel is received as it is
(`some v`), a closed and drained channel (`none`) yields the zero value. -/
def receive (recv : Option Nat) : Nat :=
  match recv with
  | some v => v
  | none => 0

/-- Lines 93-124: one iteration of the worker's loop, from the receive on. -/
def workerIter (localOffset : Int → Int) (flagCount : Bool) (GetBlock : Nat → FetchResult)
    (recv : Option Nat) : List Action × Control :=
  let slot := receive recv
  if slot == 0 then
    ([], .done)
  else
    handleSlot localOffset flagCount GetBlock slot

/-- Lines 92-125: the worker's loop run on the values delivered to it while the channel
is open, after which the channel is closed and drained. Gives every action performed, the
way the worker ended (`done` or `fault`) and the delivered values left unread. -/
def worker (localOffset : Int → Int) (flagCount : Bool) (GetBlock : Nat → FetchResult) :
    List Nat → List Action × Control × List Nat
  | [] =>
    let r := workerIter localOffset flagCount GetBlock none
    (r.1, r.2, [])
  | v :: rest =>
    match workerIter localOffset flagCount GetBlock (some v) with
    | (acts, .next) =>
      let r := worker localOffset flagCount GetBlock rest
      (acts ++ r.1, r.2.1, r.2.2)
    | (acts, c) => (acts, c, rest)

/-- The lines a list of actions writes, in order. -/
def written : List Action → List (Stream × Line)
  | [] => []
  | .Write stream line :: rest => (stream, line) :: written rest
  | _ :: rest => written rest

/-- Every write of the action list happens between a `Lock` and the matching `Unlock`;
`held` says whether the lock is held at the start. No `Lock` while held, no `Unlock`
while free, and the lock is free at the end. -/
def writesLocked : Bool → List Action → Bool
  | held, [] => !held
  | held, .Lock :: rest => !held && writesLocked true rest
  | held, .Unlock :: rest => held && writesLocked false rest
  | held, .Write _ _ :: rest => held && writesLocked held rest

/-! ## `main` and the worker pool (lines 85-142) -/

/-- The settings and surroundings of one run of the program. -/
structure Config where
  /-- The flag `-count`. -/
  flagCount : Bool
  /-- The flag `-after`. -/
  flagAfter : Nat
  /-- The flag `-workers`. -/
  workers : Nat
  /-- The slot returned by `GetSlot`, line 73. -/
  current : Nat
  /-- The offset of line 58. -/
  offset : Nat
  /-- The remote call of line 99. -/
  GetBlock : Nat → FetchResult
  /-- The offset of the local time zone at each instant. -/
  localOffset : Int → Int

/-- Where a worker goroutine stands. -/
inductive WorkerState where
  /-- Blocked in the receive of line 93. -/
  | receiving
  /-- Past the test of line 94 with a received non-zero `slot`, lines 98-124 ahead. -/
  | handling (slot : Nat)
  /-- Ran `wg.Done(); return`, lines 95-96. -/
  | returned
deriving DecidableEq, Repr

/-- Where `main` stands. -/
inductive MainState where
  /-- In the loop of line 129 with the schedule indices `rest` still to visit. -/
  | ranging (rest : List Nat)
  /-- The loop is left and `close(work)` done: in `wg.Wait()`, line 142, which returns
  when every worker has returned. -/
  | waiting
deriving DecidableEq, Repr

/-- The state of the process: `main`, the workers, the slots sent on `work` so far, and
whether a fault has aborted the process. -/
structure Sys where
  main : MainState
  pool : List WorkerState
  pushed : List Nat
  aborted : Bool
deriving DecidableEq, Repr

/-- The state once the workers are started (lines 89-127) and `main` enters its loop on the
schedule entry `slots`. -/
def init (cfg : Config) (slots : List Nat) : Sys :=
  { main := .ranging slots
    pool := List.replicate cfg.workers .receiving
    pushed := []
    aborted := false }

/-- Lines 93-97: where a worker stands after its receive yielded `recv`. -/
def afterReceive (recv : Option Nat) : WorkerState :=
  let slot := receive recv
  if slot == 0 then .returned else .handling slot

/-- The steps of the process. -/
inductive Event where
  /-- The loop of `main` runs an iteration that sends nothing (`continue`), or is left (by
  `break` or at the end of the range) and `close(work)` runs. -/
  | advance
  /-- The send of line 138 and the receive of line 93 by worker `w` happen together. -/
  | send (w : Nat)
  /-- The receive of line 93 by worker `w` on the closed channel. -/
  | recvClosed (w : Nat)
  /-- Worker `w` runs lines 98-124 for the slot it received. -/
  | handle (w : Nat)
deriving DecidableEq, Repr

/-- One step of the process, `none` when the event cannot happen in the state. Nothing
happens in an aborted process. A send needs a worker that is receiving: the channel of
line 85 has no buffer. -/
def step (cfg : Config) (e : Event) (s : Sys) : Option Sys :=
  if s.aborted then
    none
  else
    match e with
    | .advance =>
      match s.main with
      | .ranging [] => some { s with main := .waiting }
      | .ranging (slot :: rest) =>
        match loopBody cfg.flagAfter cfg.current cfg.offset slot with
        | .skip => some { s with main := .ranging rest }
        | .stop => some { s with main := .waiting }
        | .send _ => none
      | .waiting => none
    | .send w =>
      match s.main with
      | .ranging (slot :: rest) =>
        match loopBody cfg.flagAfter cfg.current cfg.offset slot with
        | .send slot =>
          match s.pool.get? w with
          | some .receiving =>
            some { s with
              main := .ranging rest
              pool := s.pool.set w (afterReceive (some slot))
              pushed := s.pushed ++ [slot] }
          | _ => none
        | _ => none
      | _ => none
    | .recvClosed w =>
      match s.main with
      | .waiting =>
        match s.pool.get? w with
        | some .receiving => some { s with pool := s.pool.set w (afterReceive none) }
        | _ => none
      | _ => none
    | .handle w =>
      match s.pool.get? w with
      | some (.handling slot) =>
        match (handleSlot cfg.localOffset cfg.flagCount cfg.GetBlock slot).2 with
        | .fault => some { s with aborted := true }
        | _ => some { s with pool := s.pool.set w .receiving }
      | _ => none

/-- The state after the events of a list, in order; `none` when one of them cannot
happen. -/
def run (cfg : Config) : List Event → Sys → Option Sys
  | [], s => some s
  | e :: es, s =>
    match step cfg e s with
    | some s1 => run cfg es s1
    | none => none

/-- The process has ended in the regular way: `main` is past the loop, every worker has
returned, so that `wg.Wait()` returns, and no fault occurred. -/
def Sys.finished (s : Sys) : Bool :=
  decide (s.main = .waiting) && s.pool.all (fun w => decide (w = .returned)) && !s.aborted


/-- The sends `main` has ahead of it, were each of them to find a receiver. -/
def MainState.plan (cfg : Config) : MainState → List Nat
  | .ranging rest => sendPlan cfg.flagAfter cfg.current cfg.offset rest
  | .waiting => []

/-- A bound on the steps `main` has ahead of it. -/
def MainState.weight : MainState → Nat
  | .ranging rest => 2 * rest.length + 1
  | .waiting => 0

/-- A bound on the steps a worker has ahead of it between two sends. -/
def WorkerState.weight : WorkerState → Nat
  | .returned => 0
  | .receiving => 1
  | .handling _ => 2

/-- A bound on the steps the process has ahead of it. -/
def Sys.weight (s : Sys) : Nat :=
  if s.aborted then 0 else 1 + s.main.weight + (s.pool.map WorkerState.weight).sum

/-- No planned send is of slot `0` and the handling of none of them faults. -/
def planSafe (cfg : Config) (plan : List Nat) : Prop :=
  ∀ x ∈ plan, x ≠ 0 ∧ (handleSlot cfg.localOffset cfg.flagCount cfg.GetBlock x).2 ≠ .fault

/-- The states in which neither a worker has left the pool early nor a fault is under way:
the process is not aborted, the pool has its `workers` members, no worker has returned
while `main` is in its loop, and neither the slots being handled nor the planned sends
lead to a fault or hold slot `0`. -/
def Sys.Sound (cfg : Config) (s : Sys) : Prop :=
  s.aborted = false ∧ s.pool.length = cfg.workers ∧
  (∀ x, .handling x ∈ s.pool →
    (handleSlot cfg.localOffset cfg.flagCount cfg.GetBlock x).2 ≠ .fault) ∧
  (∀ rest, s.main = .ranging rest → .returned ∉ s.pool) ∧
  planSafe cfg (s.main.plan cfg)

/-! ## Concrete runs -/

/-- One worker, count mode off, no lower bound, chain head at slot 10. -/
def oneWorker : Config :=
  { flagCount := false, flagAfter := 0, workers := 1, current := 10, offset := 0,
    GetBlock := fun _ => { block := none, err := none }, localOffset := fun _ => 0 }

/-- Two workers, count mode off, lower bound 108, chain head at slot 115. -/
def scenarioB : Config :=
  { flagCount := false, flagAfter := 108, workers := 2, current := 115, offset := 0,
    GetBlock := fun _ => { block := none, err := none }, localOffset := fun _ => 0 }

/-- One worker, no lower bound, chain head at slot 115. -/
def headAt115 : Config :=
  { flagCount := false, flagAfter := 0, workers := 1, current := 115, offset := 0,
    GetBlock := fun _ => { block := none, err := none }, localOffset := fun _ => 0 }

/-- One worker, the offset of the epoch with `absoluteSlot = 1` and `slotIndex = 0`. -/
def wrapConfig : Config :=
  { flagCount := false, flagAfter := 0, workers := 1, current := 5,
    offset := offset { AbsoluteSlot := 1, SlotIndex := 0, Epoch := 0 },
    GetBlock := fun _ => { block := none, err := none }, localOffset := fun _ => 0 }

/-! ## Arithmetic lemmas -/

theorem subU64_of_le {a b : Nat} (ha : a < u64) (hba : b ≤ a) : subU64 a b = a - b := by
  unfold subU64
  have hb : b < u64 := lt_of_le_of_lt hba ha
  rw [Nat.mod_eq_of_lt hb]
  have h : a + (u64 - b) = (a - b) + u64 := by omega
  rw [h, Nat.add_mod_right]
  exact Nat.mod_eq_of_lt (by omega)

theorem addU64_of_lt {a b : Nat} (h : a + b < u64) : addU64 a b = a + b :=
  Nat.mod_eq_of_lt h

/-- The days whose calendar year is within `0..9999`. -/
theorem civilYear_range_days (days : Int) :
    (0 ≤ civilYear days ∧ civilYear days ≤ 9999) ↔ (-719528 ≤ days ∧ days ≤ 2932896) := by
  simp only [civilYear]
  generalize hd : days + 719162 = d
  generalize ha : d / 146097 = a
  generalize hd1 : d % 146097 = d1
  have h1 : 0 ≤ d1 ∧ d1 < 146097 := by omega
  have hda : d = 146097 * a + d1 := by omega
  generalize hb : d1 / 36524 = b
  have hb4 : b = 0 ∨ b = 1 ∨ b = 2 ∨ b = 3 ∨ b = 4 := by omega
  generalize hd2 : d1 - 36524 * (b - b / 4) = d2
  have h2 : 0 ≤ d2 ∧ d2 ≤ 36524 := by omega
  generalize hn4 : d2 / 1461 = n4
  generalize hd3 : d2 - 1461 * n4 = d3
  have h3 : 0 ≤ d3 ∧ d3 < 1461 := by omega
  generalize he : d3 / 365 = e
  have he4 : e = 0 ∨ e = 1 ∨ e = 2 ∨ e = 3 ∨ e = 4 := by omega
  rcases hb4 with h | h | h | h | h <;> rcases he4 with h' | h' | h' | h' | h' <;>
    subst h <;> subst h' <;> omega

/-- The instants, in seconds of local time, whose calendar year is within `0..9999`: from
0000-01-01T00:00:00 to 9999-12-31T23:59:59. -/
theorem civilYear_range (z : Int) :
    (0 ≤ civilYear (z / 86400) ∧ civilYear (z / 86400) ≤ 9999) ↔
      (-62167219200 ≤ z ∧ z ≤ 253402300799) := by
  rw [civilYear_range_days]
  omega

/-- A time built by `time.Unix` marshals when its local instant is within the years
`0..9999` and the zone offset is below a day. -/
theorem timeUnix_marshals (localOffset : Int → Int) (T : Int)
    (hyear : -62167219200 ≤ T + localOffset T ∧ T + localOffset T ≤ 253402300799)
    (hzone : -86400 < localOffset T ∧ localOffset T < 86400) :
    (timeUnix localOffset T).marshals = true := by
  have hy := (civilYear_range (T + localOffset T)).2 hyear
  simp only [Time.marshals, Time.Year, timeUnix, Bool.and_eq_true, decide_eq_true_eq]
  refine ⟨hy, ?_⟩
  omega

/-! ## Lemmas on the loop body -/

theorem belowAfter_eq_false_iff (flagAfter slot : Nat) :
    belowAfter flagAfter slot = false ↔ (flagAfter = 0 ∨ slot ≥ flagAfter) := by
  unfold belowAfter
  simp only [Bool.and_eq_false_iff, decide_eq_false_iff_not]
  omega

theorem belowAfter_eq_true_iff (flagAfter slot : Nat) :
    belowAfter flagAfter slot = true ↔ (flagAfter > 0 ∧ slot < flagAfter) := by
  unfold belowAfter
  simp

theorem loopBody_eq_skip_iff (flagAfter current offset slot : Nat) :
    loopBody flagAfter current offset slot = .skip ↔
      (flagAfter > 0 ∧ (slot + offset) % 2 ^ 64 < flagAfter) := by
  rw [← belowAfter_eq_true_iff]
  show _ ↔ belowAfter flagAfter (addU64 slot offset) = true
  unfold loopBody
  by_cases hb : belowAfter flagAfter (addU64 slot offset) = true
  · simp [hb]
  · by_cases hc : addU64 slot offset > current
    · simp [hb, hc]
    · simp [hb, hc]

theorem loopBody_eq_stop_iff (flagAfter current offset slot : Nat) :
    loopBody flagAfter current offset slot = .stop ↔
      (¬ (flagAfter > 0 ∧ (slot + offset) % 2 ^ 64 < flagAfter) ∧
        (slot + offset) % 2 ^ 64 > current) := by
  rw [← belowAfter_eq_true_iff]
  show _ ↔ (¬ belowAfter flagAfter (addU64 slot offset) = true ∧ addU64 slot offset > current)
  unfold loopBody
  by_cases hb : belowAfter flagAfter (addU64 slot offset) = true
  · simp [hb]
  · by_cases hc : addU64 slot offset > current
    · simp [hb, hc]
    · simp [hb, hc]

theorem loopBody_eq_send_iff (flagAfter current offset slot x : Nat) :
    loopBody flagAfter current offset slot = .send x ↔
      (x = (slot + offset) % 2 ^ 64 ∧ ¬ (flagAfter > 0 ∧ x < flagAfter) ∧ x ≤ current) := by
  show _ ↔ (x = addU64 slot offset ∧ _)
  unfold loopBody
  by_cases hb : belowAfter flagAfter (addU64 slot offset) = true
  · have := (belowAfter_eq_true_iff _ _).1 hb
    simp only [hb, if_true]
    constructor
    · intro h; cases h
    · rintro ⟨rfl, h, -⟩; exact absurd this h
  · have hb2 : ¬ (flagAfter > 0 ∧ addU64 slot offset < flagAfter) := by
      rw [← belowAfter_eq_true_iff]; exact hb
    by_cases hc : addU64 slot offset > current
    · simp only [hb, hc, if_true]
      constructor
      · intro h; cases h
      · rintro ⟨rfl, -, h⟩; omega
    · simp only [hb, hc, if_false]
      constructor
      · intro h
        injection h with h
        subst h
        exact ⟨rfl, hb2, by omega⟩
      · rintro ⟨rfl, -, -⟩; rfl

/-- A slot equal to the `-after` bound passes the lower-bound test and is sent, one below
it is skipped (the help text of the flag reads "after this slot"). -/
theorem loopBody_at_lower_bound :
    loopBody 108 115 0 108 = .send 108 ∧ loopBody 108 115 0 107 = .skip := by
  decide

/-! ## Lemmas on the planned sends -/

theorem sendPlan_cons (flagAfter current offset a : Nat) (rest : List Nat) :
    sendPlan flagAfter current offset (a :: rest) =
      match loopBody flagAfter current offset a with
      | .skip => sendPlan flagAfter current offset rest
      | .stop => []
      | .send slot => slot :: sendPlan flagAfter current offset rest := rfl

theorem beforeCutoff_cons_skip {lower upper y : Nat} (owned : List Nat)
    (h : lower > 0 ∧ y < lower) :
    beforeCutoff lower upper (y :: owned) = beforeCutoff lower upper owned := by
  have hcut : isCutoff lower upper y = false := by
    simp only [isCutoff, decide_eq_false_iff_not]; tauto
  have hdis : discarded lower y = true := by
    simp only [discarded, decide_eq_true_eq]; exact h
  unfold beforeCutoff
  rw [List.takeWhile_cons_of_pos (by simp only [hcut, Bool.not_false]),
    List.filter_cons_of_neg (by simp only [hdis, Bool.not_true, Bool.false_eq_true,
      not_false_eq_true])]

theorem beforeCutoff_cons_stop {lower upper y : Nat} (owned : List Nat)
    (h : ¬ (lower > 0 ∧ y < lower) ∧ y > upper) :
    beforeCutoff lower upper (y :: owned) = [] := by
  have hcut : isCutoff lower upper y = true := by
    simp only [isCutoff, decide_eq_true_eq]; exact h
  unfold beforeCutoff
  rw [List.takeWhile_cons_of_neg (by simp only [hcut, Bool.not_true, Bool.false_eq_true,
      not_false_eq_true])]
  rfl

theorem beforeCutoff_cons_send {lower upper y : Nat} (owned : List Nat)
    (h1 : ¬ (lower > 0 ∧ y < lower)) (h2 : y ≤ upper) :
    beforeCutoff lower upper (y :: owned) = y :: beforeCutoff lower upper owned := by
  have hcut : isCutoff lower upper y = false := by
    simp only [isCutoff, decide_eq_false_iff_not]; omega
  have hdis : discarded lower y = false := by
    simp only [discarded, decide_eq_false_iff_not]; exact h1
  unfold beforeCutoff
  rw [List.takeWhile_cons_of_pos (by simp only [hcut, Bool.not_false]),
    List.filter_cons_of_pos (by simp only [hdis, Bool.not_false])]

/-- The planned sends are the owned slots before the first cutoff slot that are not
discarded by the lower-bound test. -/
theorem sendPlan_eq_beforeCutoff (flagAfter current offset : Nat) (slots : List Nat) :
    sendPlan flagAfter current offset slots =
      beforeCutoff flagAfter current (slots.map (fun i => (i + offset) % 2 ^ 64)) := by
  induction slots with
  | nil => rfl
  | cons a rest ih =>
    rw [sendPlan_cons, List.map_cons]
    cases h : loopBody flagAfter current offset a with
    | skip =>
      rw [beforeCutoff_cons_skip _ ((loopBody_eq_skip_iff _ _ _ _).1 h)]
      exact ih
    | stop =>
      rw [beforeCutoff_cons_stop _ ((loopBody_eq_stop_iff _ _ _ _).1 h)]
    | send x =>
      obtain ⟨rfl, h1, h2⟩ := (loopBody_eq_send_iff _ _ _ _ _).1 h
      rw [beforeCutoff_cons_send _ h1 h2]
      exact congrArg _ ih

/-- Every planned send lies within the bounds. -/
theorem sendPlan_mem_bounds (flagAfter current offset : Nat) (slots : List Nat) :
    ∀ x ∈ sendPlan flagAfter current offset slots,
      x ≤ current ∧ (flagAfter = 0 ∨ x ≥ flagAfter) := by
  induction slots with
  | nil => intro x hx; simp [sendPlan] at hx
  | cons a rest ih =>
    intro x hx
    rw [sendPlan_cons] at hx
    cases h : loopBody flagAfter current offset a with
    | skip => rw [h] at hx; exact ih x hx
    | stop => rw [h] at hx; simp at hx
    | send y =>
      rw [h] at hx
      obtain ⟨-, h1, h2⟩ := (loopBody_eq_send_iff _ _ _ _ _).1 h
      rcases List.mem_cons.1 hx with rfl | hx
      · exact ⟨h2, by omega⟩
      · exact ih x hx

/-- On ascending owned slots the planned sends are the owned slots within the bounds. -/
theorem sendPlan_eq_filter_of_ascending (flagAfter current offset : Nat) (slots : List Nat)
    (hasc : (slots.map (fun i => (i + offset) % 2 ^ 64)).Pairwise (fun a b => a ≤ b)) :
    sendPlan flagAfter current offset slots =
      (slots.map (fun i => (i + offset) % 2 ^ 64)).filter (inBounds flagAfter current) := by
  induction slots with
  | nil => rfl
  | cons a rest ih =>
    rw [List.map_cons, List.pairwise_cons] at hasc
    obtain ⟨hhead, htail⟩ := hasc
    rw [sendPlan_cons, List.map_cons]
    cases h : loopBody flagAfter current offset a with
    | skip =>
      have h1 := (loopBody_eq_skip_iff _ _ _ _).1 h
      have hin : ¬ inBounds flagAfter current ((a + offset) % 2 ^ 64) = true := by
        simp only [inBounds, decide_eq_true_eq]; omega
      rw [List.filter_cons_of_neg hin]
      exact ih htail
    | stop =>
      have h1 := (loopBody_eq_stop_iff _ _ _ _).1 h
      have hin : ¬ inBounds flagAfter current ((a + offset) % 2 ^ 64) = true := by
        simp only [inBounds, decide_eq_true_eq]; omega
      rw [List.filter_cons_of_neg hin]
      symm
      rw [List.filter_eq_nil_iff]
      intro x hx hxin
      have := hhead x hx
      simp only [inBounds, decide_eq_true_eq] at hxin
      omega
    | send x =>
      obtain ⟨rfl, h1, h2⟩ := (loopBody_eq_send_iff _ _ _ _ _).1 h
      have hin : inBounds flagAfter current ((a + offset) % 2 ^ 64) = true := by
        simp only [inBounds, decide_eq_true_eq]; omega
      rw [List.filter_cons_of_pos hin]
      exact congrArg _ (ih htail)

/-! ## Lemmas on steps and runs -/

/-- A step keeps the slots sent so far followed by the planned sends. -/
theorem step_plan (cfg : Config) (e : Event) (s s' : Sys) (h : step cfg e s = some s') :
    s'.pushed ++ s'.main.plan cfg = s.pushed ++ s.main.plan cfg := by
  obtain ⟨main, pool, pushed, aborted⟩ := s
  cases aborted with
  | true => simp [step] at h
  | false =>
    cases e with
    | advance =>
      cases main with
      | waiting => simp [step] at h
      | ranging rest =>
        cases rest with
        | nil =>
          simp only [step, Bool.false_eq_true, if_false, Option.some.injEq] at h
          subst h
          simp [MainState.plan, sendPlan]
        | cons a rest =>
          cases hl : loopBody cfg.flagAfter cfg.current cfg.offset a with
          | skip =>
            simp only [step, hl, Bool.false_eq_true, if_false, Option.some.injEq] at h
            subst h
            simp [MainState.plan, sendPlan_cons, hl]
          | stop =>
            simp only [step, hl, Bool.false_eq_true, if_false, Option.some.injEq] at h
            subst h
            simp [MainState.plan, sendPlan_cons, hl]
          | send x => simp [step, hl] at h
    | send w =>
      cases main with
      | waiting => simp [step] at h
      | ranging rest =>
        cases rest with
        | nil => simp [step] at h
        | cons a rest =>
          cases hl : loopBody cfg.flagAfter cfg.current cfg.offset a with
          | skip => simp [step, hl] at h
          | stop => simp [step, hl] at h
          | send x =>
            simp only [step, hl, Bool.false_eq_true, if_false] at h
            split at h
            · simp only [Option.some.injEq] at h
              subst h
              simp [MainState.plan, sendPlan_cons, hl]
            · simp at h
    | recvClosed w =>
      cases main with
      | ranging rest => simp [step] at h
      | waiting =>
        simp only [step, Bool.false_eq_true, if_false] at h
        split at h
        · simp only [Option.some.injEq] at h
          subst h
          rfl
        · simp at h
    | handle w =>
      simp only [step, Bool.false_eq_true, if_false] at h
      split at h
      · split at h <;>
        · simp only [Option.some.injEq] at h
          subst h
          rfl
      · simp at h

/-- A run keeps the slots sent so far followed by the planned sends. -/
theorem run_plan (cfg : Config) (events : List Event) :
    ∀ s s' : Sys, run cfg events s = some s' →
      s'.pushed ++ s'.main.plan cfg = s.pushed ++ s.main.plan cfg := by
  induction events with
  | nil =>
    intro s s' h
    simp only [run, Option.some.injEq] at h
    subst h
    rfl
  | cons e es ih =>
    intro s s' h
    simp only [run] at h
    cases hs : step cfg e s with
    | none => simp [hs] at h
    | some s1 =>
      rw [hs] at h
      rw [ih s1 s' h, step_plan cfg e s s1 hs]

/-- In every state the process reaches, the slots sent so far are an initial part of the
planned sends of the whole schedule entry, and all of them once `main` has left its loop. -/
theorem run_init_plan (cfg : Config) (slots : List Nat) (events : List Event) (s : Sys)
    (h : run cfg events (init cfg slots) = some s) :
    s.pushed ++ s.main.plan cfg = sendPlan cfg.flagAfter cfg.current cfg.offset slots := by
  have := run_plan cfg events _ _ h
  simpa [init, MainState.plan] using this

theorem run_append (cfg : Config) (es1 es2 : List Event) (s s1 s2 : Sys)
    (h1 : run cfg es1 s = some s1) (h2 : run cfg es2 s1 = some s2) :
    run cfg (es1 ++ es2) s = some s2 := by
  induction es1 generalizing s with
  | nil =>
    simp only [run, Option.some.injEq] at h1
    subst h1
    exact h2
  | cons e es ih =>
    simp only [run, List.cons_append] at h1 ⊢
    cases hs : step cfg e s with
    | none => simp [hs] at h1
    | some s' =>
      rw [hs] at h1
      exact ih s' h1

/-! ## What each step does -/

theorem step_not_aborted (cfg : Config) (e : Event) (s s' : Sys)
    (h : step cfg e s = some s') : s.aborted = false := by
  cases ha : s.aborted with
  | false => rfl
  | true => simp [step, ha] at h

theorem step_advance_elim (cfg : Config) (s s' : Sys) (h : step cfg .advance s = some s') :
    (s.main = .ranging [] ∧ s' = { s with main := .waiting }) ∨
    (∃ a rest, s.main = .ranging (a :: rest) ∧
      loopBody cfg.flagAfter cfg.current cfg.offset a = .skip ∧
      s' = { s with main := .ranging rest }) ∨
    (∃ a rest, s.main = .ranging (a :: rest) ∧
      loopBody cfg.flagAfter cfg.current cfg.offset a = .stop ∧
      s' = { s with main := .waiting }) := by
  have ha := step_not_aborted cfg _ s s' h
  obtain ⟨main, pool, pushed, aborted⟩ := s
  simp only at ha
  subst ha
  cases main with
  | waiting => simp [step] at h
  | ranging rest =>
    cases rest with
    | nil =>
      simp only [step, Bool.false_eq_true, if_false, Option.some.injEq] at h
      exact Or.inl ⟨rfl, h.symm⟩
    | cons a rest =>
      cases hl : loopBody cfg.flagAfter cfg.current cfg.offset a with
      | skip =>
        simp only [step, hl, Bool.false_eq_true, if_false, Option.some.injEq] at h
        exact Or.inr (Or.inl ⟨a, rest, rfl, hl, h.symm⟩)
      | stop =>
        simp only [step, hl, Bool.false_eq_true, if_false, Option.some.injEq] at h
        exact Or.inr (Or.inr ⟨a, rest, rfl, hl, h.symm⟩)
      | send x => simp [step, hl] at h

theorem step_send_elim (cfg : Config) (w : Nat) (s s' : Sys)
    (h : step cfg (.send w) s = some s') :
    ∃ a rest x, s.main = .ranging (a :: rest) ∧
      loopBody cfg.flagAfter cfg.current cfg.offset a = .send x ∧
      s.pool.get? w = some .receiving ∧
      s' = { s with
        main := .ranging rest
        pool := s.pool.set w (afterReceive (some x))
        pushed := s.pushed ++ [x] } := by
  have ha := step_not_aborted cfg _ s s' h
  obtain ⟨main, pool, pushed, aborted⟩ := s
  simp only at ha
  subst ha
  cases main with
  | waiting => simp [step] at h
  | ranging rest =>
    cases rest with
    | nil => simp [step] at h
    | cons a rest =>
      cases hl : loopBody cfg.flagAfter cfg.current cfg.offset a with
      | skip => simp [step, hl] at h
      | stop => simp [step, hl] at h
      | send x =>
        simp only [step, hl, Bool.false_eq_true, if_false] at h
        split at h
        · rename_i hw
          simp only [Option.some.injEq] at h
          exact ⟨a, rest, x, rfl, hl, hw, h.symm⟩
        · simp at h

theorem step_recvClosed_elim (cfg : Config) (w : Nat) (s s' : Sys)
    (h : step cfg (.recvClosed w) s = some s') :
    s.main = .waiting ∧ s.pool.get? w = some .receiving ∧
      s' = { s with pool := s.pool.set w (afterReceive none) } := by
  have ha := step_not_aborted cfg _ s s' h
  obtain ⟨main, pool, pushed, aborted⟩ := s
  simp only at ha
  subst ha
  cases main with
  | ranging rest => simp [step] at h
  | waiting =>
    simp only [step, Bool.false_eq_true, if_false] at h
    split at h
    · rename_i hw
      simp only [Option.some.injEq] at h
      exact ⟨rfl, hw, h.symm⟩
    · simp at h

theorem step_handle_elim (cfg : Config) (w : Nat) (s s' : Sys)
    (h : step cfg (.handle w) s = some s') :
    ∃ x, s.pool.get? w = some (.handling x) ∧
      (((handleSlot cfg.localOffset cfg.flagCount cfg.GetBlock x).2 = .fault ∧
          s' = { s with aborted := true }) ∨
        ((handleSlot cfg.localOffset cfg.flagCount cfg.GetBlock x).2 ≠ .fault ∧
          s' = { s with pool := s.pool.set w .receiving })) := by
  have ha := step_not_aborted cfg _ s s' h
  obtain ⟨main, pool, pushed, aborted⟩ := s
  simp only at ha
  subst ha
  simp only [step, Bool.false_eq_true, if_false] at h
  split at h
  · rename_i x hw
    refine ⟨x, hw, ?_⟩
    split at h
    · rename_i hf
      simp only [Option.some.injEq] at h
      exact Or.inl ⟨hf, h.symm⟩
    · rename_i hf
      simp only [Option.some.injEq] at h
      exact Or.inr ⟨fun hc => hf hc, h.symm⟩
  · simp at h

theorem afterReceive_none : afterReceive none = .returned := rfl

theorem afterReceive_some_ne_zero {x : Nat} (hx : x ≠ 0) :
    afterReceive (some x) = .handling x := by
  simp [afterReceive, receive, hx]

/-! ## Every run is finite -/

theorem sum_weight_set (l : List WorkerState) (w : Nat) (x y : WorkerState)
    (h : l.get? w = some x) :
    ((l.set w y).map WorkerState.weight).sum + x.weight =
      (l.map WorkerState.weight).sum + y.weight := by
  induction l generalizing w with
  | nil => simp at h
  | cons a l ih =>
    cases w with
    | zero =>
      simp only [List.get?_cons_zero, Option.some.injEq] at h
      subst h
      simp only [List.set_cons_zero, List.map_cons, List.sum_cons]
      omega
    | succ n =>
      simp only [List.get?_cons_succ] at h
      have := ih n h
      simp only [List.set_cons_succ, List.map_cons, List.sum_cons]
      omega

theorem afterReceive_weight_le (recv : Option Nat) : (afterReceive recv).weight ≤ 2 := by
  simp only [afterReceive]
  split <;> simp [WorkerState.weight]

/-- Every step lowers the weight of the state. -/
theorem step_weight (cfg : Config) (e : Event) (s s' : Sys) (h : step cfg e s = some s') :
    s'.weight < s.weight := by
  have ha := step_not_aborted cfg e s s' h
  cases e with
  | advance =>
    rcases step_advance_elim cfg s s' h with ⟨hm, rfl⟩ | ⟨a, rest, hm, -, rfl⟩ |
      ⟨a, rest, hm, -, rfl⟩ <;>
      simp [Sys.weight, ha, hm, MainState.weight]
  | send w =>
    obtain ⟨a, rest, x, hm, -, hw, rfl⟩ := step_send_elim cfg w s s' h
    have h1 := sum_weight_set s.pool w _ (afterReceive (some x)) hw
    have h2 := afterReceive_weight_le (some x)
    have h3 : WorkerState.receiving.weight = 1 := rfl
    rw [h3] at h1
    simp only [Sys.weight, ha, hm, MainState.weight, List.length_cons, Bool.false_eq_true,
      if_false]
    omega
  | recvClosed w =>
    obtain ⟨hm, hw, rfl⟩ := step_recvClosed_elim cfg w s s' h
    have h1 := sum_weight_set s.pool w _ (afterReceive none) hw
    have h3 : WorkerState.receiving.weight = 1 := rfl
    have h4 : WorkerState.returned.weight = 0 := rfl
    rw [afterReceive_none, h3, h4] at h1
    simp only [Sys.weight, ha, hm, MainState.weight, Bool.false_eq_true, if_false,
      afterReceive_none]
    omega
  | handle w =>
    obtain ⟨x, hw, ⟨-, rfl⟩ | ⟨-, rfl⟩⟩ := step_handle_elim cfg w s s' h
    · simp [Sys.weight, ha]
    · have h1 := sum_weight_set s.pool w _ .receiving hw
      have h3 : WorkerState.receiving.weight = 1 := rfl
      have h4 : (WorkerState.handling x).weight = 2 := rfl
      rw [h3, h4] at h1
      simp only [Sys.weight, ha, Bool.false_eq_true, if_false]
      omega

/-- A run has at most as many steps as the weight of its first state. -/
theorem run_length_le (cfg : Config) (events : List Event) :
    ∀ s s' : Sys, run cfg events s = some s' → events.length + s'.weight ≤ s.weight := by
  induction events with
  | nil =>
    intro s s' h
    simp only [run, Option.some.injEq] at h
    subst h
    simp
  | cons e es ih =>
    intro s s' h
    simp only [run] at h
    cases hs : step cfg e s with
    | none => simp [hs] at h
    | some s1 =>
      rw [hs] at h
      have h1 := ih s1 s' h
      have h2 := step_weight cfg e s s1 hs
      simp only [List.length_cons]
      omega

/-! ## Every run can be completed -/

theorem init_sound (cfg : Config) (slots : List Nat)
    (hsafe : planSafe cfg (sendPlan cfg.flagAfter cfg.current cfg.offset slots)) :
    (init cfg slots).Sound cfg := by
  refine ⟨rfl, by simp [init], ?_, ?_, hsafe⟩
  · intro x hx
    have := List.eq_of_mem_replicate hx
    cases this
  · intro rest _ hx
    have := List.eq_of_mem_replicate hx
    cases this

/-- Steps keep a sound state sound. -/
theorem step_sound (cfg : Config) (e : Event) (s s' : Sys) (hs : s.Sound cfg)
    (h : step cfg e s = some s') : s'.Sound cfg := by
  obtain ⟨ha, hlen, hhand, hret, hplan⟩ := hs
  cases e with
  | advance =>
    rcases step_advance_elim cfg s s' h with ⟨hm, rfl⟩ | ⟨a, rest, hm, hl, rfl⟩ |
      ⟨a, rest, hm, hl, rfl⟩
    · refine ⟨ha, hlen, hhand, ?_, ?_⟩
      · intro _ hc
        cases hc
      · intro x hx
        cases hx
    · refine ⟨ha, hlen, hhand, fun _ _ => hret _ hm, ?_⟩
      rw [hm] at hplan
      simpa [MainState.plan, sendPlan_cons, hl] using hplan
    · refine ⟨ha, hlen, hhand, ?_, ?_⟩
      · intro _ hc
        cases hc
      · intro x hx
        cases hx
  | send w =>
    obtain ⟨a, rest, x, hm, hl, hw, rfl⟩ := step_send_elim cfg w s s' h
    rw [hm] at hplan
    have hplan2 : planSafe cfg (x :: sendPlan cfg.flagAfter cfg.current cfg.offset rest) := by
      simpa [MainState.plan, sendPlan_cons, hl] using hplan
    obtain ⟨hx0, hxf⟩ := hplan2 x (List.mem_cons_self _ _)
    rw [afterReceive_some_ne_zero hx0]
    refine ⟨ha, by simpa using hlen, ?_, ?_, ?_⟩
    · intro y hy
      rcases List.mem_or_eq_of_mem_set hy with hy | hy
      · exact hhand y hy
      · cases hy; exact hxf
    · intro _ _ hc
      rcases List.mem_or_eq_of_mem_set hc with hc | hc
      · exact hret _ hm hc
      · cases hc
    · intro y hy
      exact hplan2 y (List.mem_cons_of_mem _ hy)
  | recvClosed w =>
    obtain ⟨hm, hw, rfl⟩ := step_recvClosed_elim cfg w s s' h
    rw [afterReceive_none]
    refine ⟨ha, by simpa using hlen, ?_, ?_, hplan⟩
    · intro y hy
      rcases List.mem_or_eq_of_mem_set hy with hy | hy
      · exact hhand y hy
      · cases hy
    · intro rest hc
      simp only [hm] at hc
      cases hc
  | handle w =>
    obtain ⟨x, hw, ⟨hf, rfl⟩ | ⟨hf, rfl⟩⟩ := step_handle_elim cfg w s s' h
    · exact absurd hf (hhand x (List.get?_mem hw))
    · refine ⟨ha, by simpa using hlen, ?_, ?_, hplan⟩
      · intro y hy
        rcases List.mem_or_eq_of_mem_set hy with hy | hy
        · exact hhand y hy
        · cases hy
      · intro rest hm hc
        rcases List.mem_or_eq_of_mem_set hc with hc | hc
        · exact hret _ hm hc
        · cases hc

theorem run_sound (cfg : Config) (events : List Event) :
    ∀ s s' : Sys, s.Sound cfg → run cfg events s = some s' → s'.Sound cfg := by
  induction events with
  | nil =>
    intro s s' hs h
    simp only [run, Option.some.injEq] at h
    subst h
    exact hs
  | cons e es ih =>
    intro s s' hs h
    simp only [run] at h
    cases hst : step cfg e s with
    | none => simp [hst] at h
    | some s1 =>
      rw [hst] at h
      exact ih s1 s' (step_sound cfg e s s1 hs hst) h

/-- A sound state of a process with at least one worker is finished or has a step. -/
theorem sound_progress (cfg : Config) (s : Sys) (hw : 0 < cfg.workers) (hs : s.Sound cfg)
    (hfin : s.finished = false) : ∃ e s', step cfg e s = some s' := by
  obtain ⟨ha, hlen, hhand, hret, hplan⟩ := hs
  obtain ⟨main, pool, pushed, aborted⟩ := s
  simp only at ha hlen hhand hret hplan
  subst ha
  cases main with
  | ranging rest =>
    cases rest with
    | nil => exact ⟨.advance, _, rfl⟩
    | cons a rest =>
      cases hl : loopBody cfg.flagAfter cfg.current cfg.offset a with
      | skip => exact ⟨.advance, Option.isSome_iff_exists.1 (by simp [step, hl])⟩
      | stop => exact ⟨.advance, Option.isSome_iff_exists.1 (by simp [step, hl])⟩
      | send x =>
        cases pool with
        | nil => simp at hlen; omega
        | cons w0 pool =>
          cases w0 with
          | receiving => exact ⟨.send 0, Option.isSome_iff_exists.1 (by simp [step, hl])⟩
          | handling y =>
            cases hf : (handleSlot cfg.localOffset cfg.flagCount cfg.GetBlock y).2 with
            | fault => exact absurd hf (hhand y (List.mem_cons_self _ _))
            | next => exact ⟨.handle 0, Option.isSome_iff_exists.1 (by simp [step, hf])⟩
            | done => exact ⟨.handle 0, Option.isSome_iff_exists.1 (by simp [step, hf])⟩
          | returned => exact absurd (List.mem_cons_self _ _) (hret _ rfl)
  | waiting =>
    have hex : ∃ w ∈ pool, w ≠ WorkerState.returned := by
      by_contra hc
      push_neg at hc
      have : (pool.all fun w => decide (w = WorkerState.returned)) = true := by
        rw [List.all_eq_true]
        intro w hw
        simpa using hc w hw
      simp [Sys.finished, this] at hfin
    obtain ⟨w, hwm, hwne⟩ := hex
    obtain ⟨n, hn⟩ := List.mem_iff_get?.1 hwm
    rw [List.get?_eq_getElem?] at hn
    cases w with
    | returned => exact absurd rfl hwne
    | receiving => exact ⟨.recvClosed n, Option.isSome_iff_exists.1 (by simp [step, hn])⟩
    | handling y =>
      cases hf : (handleSlot cfg.localOffset cfg.flagCount cfg.GetBlock y).2 with
      | fault => exact absurd hf (hhand y hwm)
      | next => exact ⟨.handle n, Option.isSome_iff_exists.1 (by simp [step, hn, hf])⟩
      | done => exact ⟨.handle n, Option.isSome_iff_exists.1 (by simp [step, hn, hf])⟩

/-- From a sound state of a process with at least one worker the run can be carried on
until the process has finished. -/
theorem sound_completes (cfg : Config) (hw : 0 < cfg.workers) :
    ∀ (n : Nat) (s : Sys), s.Sound cfg → s.weight ≤ n →
      ∃ events s', run cfg events s = some s' ∧ s'.finished = true := by
  intro n
  induction n with
  | zero =>
    intro s hs hn
    have : s.weight = 1 + s.main.weight + (s.pool.map WorkerState.weight).sum := by
      simp [Sys.weight, hs.1]
    omega
  | succ n ih =>
    intro s hs hn
    cases hfin : s.finished with
    | true => exact ⟨[], s, rfl, hfin⟩
    | false =>
      obtain ⟨e, s1, h1⟩ := sound_progress cfg s hw hs hfin
      have hlt := step_weight cfg e s s1 h1
      obtain ⟨es, s', hrun, hfin'⟩ := ih s1 (step_sound cfg e s s1 hs h1) (by omega)
      exact ⟨e :: es, s', by simp [run, h1, hrun], hfin'⟩

/-- When the process has at least one worker and the planned sends are safe, every run can
be carried on until the process has finished, and then every planned send has been made. -/
theorem run_completes (cfg : Config) (slots : List Nat) (events : List Event) (s : Sys)
    (hw : 0 < cfg.workers)
    (hsafe : planSafe cfg (sendPlan cfg.flagAfter cfg.current cfg.offset slots))
    (h : run cfg events (init cfg slots) = some s) :
    ∃ more s', run cfg more s = some s' ∧ s'.finished = true ∧
      s'.pushed = sendPlan cfg.flagAfter cfg.current cfg.offset slots := by
  have hs := run_sound cfg events _ _ (init_sound cfg slots hsafe) h
  obtain ⟨more, s', hrun, hfin⟩ := sound_completes cfg hw s.weight s hs (le_refl _)
  refine ⟨more, s', hrun, hfin, ?_⟩
  have hall := run_init_plan cfg slots (events ++ more) s' (run_append cfg _ _ _ _ _ h hrun)
  have hm : s'.main = .waiting := by
    simp only [Sys.finished, Bool.and_eq_true, decide_eq_true_eq] at hfin
    exact hfin.1.1
  rw [hm] at hall
  simpa [MainState.plan] using hall

/-! ## Schedule resolution: claims -/

/-- Under the input constraint the computed offset is the plain difference. -/
theorem offset_eq_sub (epoch : EpochInfo) (hwf : epoch.WF)
    (hle : epoch.SlotIndex ≤ epoch.AbsoluteSlot) :
    offset epoch = epoch.AbsoluteSlot - epoch.SlotIndex :=
  subU64_of_le hwf.1 hle

/-- When no sum wraps, resolving is adding the offset to each index. -/
theorem ownedSlots_eq_map_add (off : Nat) (slots : List Nat)
    (hfit : ∀ i ∈ slots, i + off < u64) :
    ownedSlots off slots = slots.map (fun i => i + off) := by
  unfold ownedSlots
  apply List.map_congr_left
  intro i hi
  exact addU64_of_lt (hfit i hi)

/-- C9 (counterexample): with `absoluteSlot = 1`, `slotIndex = 0` the offset is `1`, and the
ascending schedule entry `[0, 2 ^ 64 - 1]` resolves to `[1, 0]`, which is not ascending. -/
theorem ownedSlots_wrap_counterexample :
    (0 : Nat) ≤ 1 ∧
    EpochInfo.WF { AbsoluteSlot := 1, SlotIndex := 0, Epoch := 0 } ∧
    [0, 2 ^ 64 - 1].Pairwise (fun a b : Nat => a < b) ∧
    ownedSlots (offset { AbsoluteSlot := 1, SlotIndex := 0, Epoch := 0 }) [0, 2 ^ 64 - 1]
      = [1, 0] ∧
    ¬ (ownedSlots (offset { AbsoluteSlot := 1, SlotIndex := 0, Epoch := 0 })
        [0, 2 ^ 64 - 1]).Pairwise (fun a b => a ≤ b) := by
  refine ⟨by decide, ⟨by decide, by decide, by decide⟩, by decide, by decide, by decide⟩

/-- C9 (amended): for every epoch snapshot with `absoluteSlot ≥ slotIndex` and every
ascending schedule entry whose indices, increased by `absoluteSlot - slotIndex`, all fit in
64 bits, the resolved absolute slots are again ascending (and strictly so when the entry
is). -/
theorem ownedSlots_ascending (epoch : EpochInfo) (slots : List Nat) (hwf : epoch.WF)
    (hle : epoch.SlotIndex ≤ epoch.AbsoluteSlot)
    (hfit : ∀ i ∈ slots, i + (epoch.AbsoluteSlot - epoch.SlotIndex) < u64)
    (hasc : slots.Pairwise (fun a b => a ≤ b)) :
    (ownedSlots (offset epoch) slots).Pairwise (fun a b => a ≤ b) ∧
    (slots.Pairwise (fun a b => a < b) →
      (ownedSlots (offset epoch) slots).Pairwise (fun a b => a < b)) := by
  rw [offset_eq_sub epoch hwf hle, ownedSlots_eq_map_add _ _ hfit]
  constructor
  · rw [List.pairwise_map]
    exact hasc.imp (fun h => Nat.add_le_add_right h _)
  · intro hlt
    rw [List.pairwise_map]
    exact hlt.imp (fun h => Nat.add_lt_add_right h _)

/-- C9 (witness): the epoch with `absoluteSlot = 150`, `slotIndex = 50` and the entry
`[5, 10, 20]`. -/
theorem ownedSlots_ascending_witness :
    (ownedSlots (offset { AbsoluteSlot := 150, SlotIndex := 50, Epoch := 3 })
        [5, 10, 20]).Pairwise (fun a b => a ≤ b) ∧
    ([5, 10, 20].Pairwise (fun a b : Nat => a < b) →
      (ownedSlots (offset { AbsoluteSlot := 150, SlotIndex := 50, Epoch := 3 })
        [5, 10, 20]).Pairwise (fun a b => a < b)) :=
  ownedSlots_ascending { AbsoluteSlot := 150, SlotIndex := 50, Epoch := 3 } [5, 10, 20]
    ⟨by decide, by decide, by decide⟩ (by decide) (by decide) (by decide)

/-- C10 (counterexample): with `absoluteSlot = 1`, `slotIndex = 0` the offset is `1`, and
for the relative index `2 ^ 64 - 1` the code computes the absolute slot `0`, whereas the
integer sum is `2 ^ 64`; with that offset the loop sends slot `0` for the index
`2 ^ 64 - 1`. -/
theorem addU64_wrap_counterexample :
    offset { AbsoluteSlot := 1, SlotIndex := 0, Epoch := 0 } = 1 ∧
    addU64 (2 ^ 64 - 1) (offset { AbsoluteSlot := 1, SlotIndex := 0, Epoch := 0 }) = 0 ∧
    (2 ^ 64 - 1) + offset { AbsoluteSlot := 1, SlotIndex := 0, Epoch := 0 } = 2 ^ 64 ∧
    (run wrapConfig [.send 0] (init wrapConfig [2 ^ 64 - 1])).map Sys.pushed = some [0] := by
  decide

/-- C10 (amended): for every epoch snapshot with `absoluteSlot ≥ slotIndex` the computed
offset equals the integer difference `absoluteSlot - slotIndex`, which is non-negative, and
for every relative index `i` whose sum with that difference fits in 64 bits the computed
absolute slot equals the integer sum `i + offset`. -/
theorem offset_and_slot_exact (epoch : EpochInfo) (i : Nat) (hwf : epoch.WF)
    (hle : epoch.SlotIndex ≤ epoch.AbsoluteSlot)
    (hfit : i + (epoch.AbsoluteSlot - epoch.SlotIndex) < u64) :
    (offset epoch : Int) = (epoch.AbsoluteSlot : Int) - (epoch.SlotIndex : Int) ∧
    (0 : Int) ≤ (epoch.AbsoluteSlot : Int) - (epoch.SlotIndex : Int) ∧
    (addU64 i (offset epoch) : Int) = (i : Int) + (offset epoch : Int) := by
  have hoff := offset_eq_sub epoch hwf hle
  refine ⟨?_, ?_, ?_⟩
  · rw [hoff]; omega
  · omega
  · rw [hoff, addU64_of_lt hfit]; omega

/-- C10 (witness): scenario A, an epoch with offset `100` and the relative indices
`[5, 10, 20]`, gives the owned slots `[105, 110, 120]`. -/
theorem offset_and_slot_exact_witness :
    ((offset { AbsoluteSlot := 150, SlotIndex := 50, Epoch := 3 } : Int) = (150 : Int) - 50 ∧
      (0 : Int) ≤ (150 : Int) - 50 ∧
      (addU64 5 (offset { AbsoluteSlot := 150, SlotIndex := 50, Epoch := 3 }) : Int)
        = 5 + (offset { AbsoluteSlot := 150, SlotIndex := 50, Epoch := 3 } : Int)) ∧
    offset { AbsoluteSlot := 150, SlotIndex := 50, Epoch := 3 } = 100 ∧
    ownedSlots (offset { AbsoluteSlot := 150, SlotIndex := 50, Epoch := 3 }) [5, 10, 20]
      = [105, 110, 120] :=
  ⟨offset_and_slot_exact { AbsoluteSlot := 150, SlotIndex := 50, Epoch := 3 } 5
      ⟨by decide, by decide, by decide⟩ (by decide) (by decide),
    by decide, by decide⟩

/-! ## Producer loop: claims -/

/-- C2 (counterexample): on the owned slots `[120, 110]` with no lower bound and upper
bound `115` the owned slots within the bounds are `[110]`, but no run of the process ever
sends a slot, and the run that leaves the loop at slot `120` finishes with nothing sent. -/
theorem producer_unsorted_counterexample :
    ([120, 110].map (fun i => (i + headAt115.offset) % 2 ^ 64)).filter
        (inBounds headAt115.flagAfter headAt115.current) = [110] ∧
    (∀ events s, run headAt115 events (init headAt115 [120, 110]) = some s → s.pushed = []) ∧
    run headAt115 [.advance, .recvClosed 0] (init headAt115 [120, 110])
      = some { main := .waiting, pool := [.returned], pushed := [], aborted := false } := by
  refine ⟨by decide, ?_, by decide⟩
  intro events s h
  have hp := run_init_plan headAt115 [120, 110] events s h
  have h0 : sendPlan headAt115.flagAfter headAt115.current headAt115.offset [120, 110] = [] := by
    decide
  rw [h0] at hp
  exact (List.append_eq_nil.1 hp).1

/-- C2 (amended): when the owned absolute slots are in ascending order, the slots sent on
the work queue are at every moment an initial part of the owned slots `s` with (`lower = 0`
or `s ≥ lower`) and `s ≤ upper`, in original order, and exactly those slots once the loop
has ended. Every run has at most `2 * |slots| + workers + 2` steps, and when there is at
least one worker, none of those slots is `0` and the handling of none of them faults, every
run can be carried on until the process has finished with exactly those slots sent. -/
theorem producer_eq_filter_of_ascending (cfg : Config) (slots : List Nat)
    (events : List Event) (s : Sys)
    (hasc : (slots.map (fun i => (i + cfg.offset) % 2 ^ 64)).Pairwise (fun a b => a ≤ b))
    (hrun : run cfg events (init cfg slots) = some s) :
    (∃ later, s.pushed ++ later =
      (slots.map (fun i => (i + cfg.offset) % 2 ^ 64)).filter
        (inBounds cfg.flagAfter cfg.current)) ∧
    (s.main = .waiting → s.pushed =
      (slots.map (fun i => (i + cfg.offset) % 2 ^ 64)).filter
        (inBounds cfg.flagAfter cfg.current)) ∧
    events.length ≤ 2 * slots.length + cfg.workers + 2 ∧
    (0 < cfg.workers →
      (∀ x ∈ (slots.map (fun i => (i + cfg.offset) % 2 ^ 64)).filter
          (inBounds cfg.flagAfter cfg.current),
        x ≠ 0 ∧ (handleSlot cfg.localOffset cfg.flagCount cfg.GetBlock x).2 ≠ .fault) →
      ∃ more s', run cfg more s = some s' ∧ s'.finished = true ∧
        s'.pushed = (slots.map (fun i => (i + cfg.offset) % 2 ^ 64)).filter
          (inBounds cfg.flagAfter cfg.current)) := by
  have hplan := sendPlan_eq_filter_of_ascending cfg.flagAfter cfg.current cfg.offset slots hasc
  have hinv := run_init_plan cfg slots events s hrun
  rw [hplan] at hinv
  refine ⟨⟨_, hinv⟩, ?_, ?_, ?_⟩
  · intro hm
    rw [hm] at hinv
    simpa [MainState.plan] using hinv
  · have := run_length_le cfg events _ _ hrun
    simp [Sys.weight, init, MainState.weight, WorkerState.weight] at this
    omega
  · intro hw hsafe
    rw [← hplan] at hsafe ⊢
    exact run_completes cfg slots events s hw hsafe hrun

/-- C2 (witness): scenario B, owned slots `[105, 110, 120]`, lower bound `108`, upper bound
`115`, two workers: after the loop has skipped `105`, sent `110` to the second worker and
left at `120`, the slots sent are `[110]`, the owned slots within the bounds. -/
theorem producer_eq_filter_of_ascending_witness :
    ([105, 110, 120].map (fun i => (i + scenarioB.offset) % 2 ^ 64)).Pairwise
      (fun a b => a ≤ b) ∧
    run scenarioB [.advance, .send 1, .advance] (init scenarioB [105, 110, 120])
      = some { main := .waiting, pool := [.receiving, .handling 110], pushed := [110],
               aborted := false } ∧
    ([105, 110, 120].map (fun i => (i + scenarioB.offset) % 2 ^ 64)).filter
      (inBounds scenarioB.flagAfter scenarioB.current) = [110] ∧
    [110] = ([105, 110, 120].map (fun i => (i + scenarioB.offset) % 2 ^ 64)).filter
      (inBounds scenarioB.flagAfter scenarioB.current) ∧
    (∃ more s', run scenarioB more
        { main := .waiting, pool := [.receiving, .handling 110], pushed := [110],
          aborted := false } = some s' ∧
      s'.finished = true ∧
      s'.pushed = ([105, 110, 120].map (fun i => (i + scenarioB.offset) % 2 ^ 64)).filter
        (inBounds scenarioB.flagAfter scenarioB.current)) :=
  have h := producer_eq_filter_of_ascending scenarioB [105, 110, 120]
    [.advance, .send 1, .advance]
    { main := .waiting, pool := [.receiving, .handling 110], pushed := [110], aborted := false }
    (by decide) (by decide)
  ⟨by decide, by decide, by decide, h.2.1 rfl,
    h.2.2.2 (by decide) (by
      intro x hx
      have hx2 : x = 110 := by
        have hf : ([105, 110, 120].map (fun i => (i + scenarioB.offset) % 2 ^ 64)).filter
            (inBounds scenarioB.flagAfter scenarioB.current) = [110] := by decide
        rw [hf] at hx
        simpa using hx
      subst hx2
      decide)⟩

/-- C3 (counterexample): one worker, owned slots `[0, 7, 120, 8]`, no lower bound, upper
bound `10`. The slots before the cutoff slot `120` are `[0, 7]`, but the worker returns on
the delivered `0`, after which no step is possible: the send of `7` finds no receiver. No
run sends more than `[0]`. -/
theorem producer_blocked_counterexample :
    beforeCutoff oneWorker.flagAfter oneWorker.current
      ([0, 7, 120, 8].map (fun i => (i + oneWorker.offset) % 2 ^ 64)) = [0, 7] ∧
    run oneWorker [.send 0] (init oneWorker [0, 7, 120, 8])
      = some { main := .ranging [7, 120, 8], pool := [.returned], pushed := [0],
               aborted := false } ∧
    (∀ e, step oneWorker e
      { main := .ranging [7, 120, 8], pool := [.returned], pushed := [0], aborted := false }
        = none) ∧
    (∀ events s, run oneWorker events (init oneWorker [0, 7, 120, 8]) = some s →
      s.pushed = [] ∨ s.pushed = [0]) := by
  have hstuck : ∀ e, step oneWorker e
      { main := .ranging [7, 120, 8], pool := [.returned], pushed := [0], aborted := false }
        = none := by
    intro e
    cases e with
    | advance => rfl
    | send w => cases w <;> rfl
    | recvClosed w => rfl
    | handle w => cases w <;> rfl
  have hfirst : ∀ e s', step oneWorker e (init oneWorker [0, 7, 120, 8]) = some s' →
      s' = { main := .ranging [7, 120, 8], pool := [.returned], pushed := [0],
             aborted := false } := by
    intro e s' h
    cases e with
    | advance => cases h
    | send w =>
      cases w with
      | zero => cases h; rfl
      | succ n => cases h
    | recvClosed w => cases h
    | handle w =>
      cases w with
      | zero => cases h
      | succ n => cases h
  refine ⟨by decide, by decide, hstuck, ?_⟩
  intro events s h
  cases events with
  | nil =>
    simp only [run, Option.some.injEq] at h
    subst h
    exact Or.inl rfl
  | cons e es =>
    simp only [run] at h
    cases hs : step oneWorker e (init oneWorker [0, 7, 120, 8]) with
    | none => simp [hs] at h
    | some s1 =>
      rw [hs] at h
      have h1 := hfirst e s1 hs
      subst h1
      cases es with
      | nil =>
        simp only [run, Option.some.injEq] at h
        subst h
        exact Or.inr rfl
      | cons e2 es2 =>
        simp only [run, hstuck e2] at h
        cases h

/-- C3 (amended): for every schedule entry, in any order, all bounds and every number of
workers, nothing at or after the first owned slot that is not discarded by the lower-bound
test and is greater than `upper` is sent: the slots sent are at every moment an initial
part of the slots before that position that pass the lower-bound test, in original order,
and exactly those slots once the loop has ended. Hence every slot sent has `s ≤ upper` and
(`lower = 0` or `s ≥ lower`). Every run has at most `2 * |slots| + workers + 2` steps, and
when there is at least one worker, none of those slots is `0` and the handling of none of
them faults, every run can be carried on until the process has finished with exactly those
slots sent. -/
theorem producer_hard_cutoff (cfg : Config) (slots : List Nat) (events : List Event) (s : Sys)
    (hrun : run cfg events (init cfg slots) = some s) :
    (∃ later, s.pushed ++ later =
      beforeCutoff cfg.flagAfter cfg.current
        (slots.map (fun i => (i + cfg.offset) % 2 ^ 64))) ∧
    (s.main = .waiting → s.pushed =
      beforeCutoff cfg.flagAfter cfg.current
        (slots.map (fun i => (i + cfg.offset) % 2 ^ 64))) ∧
    (∀ x ∈ s.pushed, x ≤ cfg.current ∧ (cfg.flagAfter = 0 ∨ x ≥ cfg.flagAfter)) ∧
    events.length ≤ 2 * slots.length + cfg.workers + 2 ∧
    (0 < cfg.workers →
      (∀ x ∈ beforeCutoff cfg.flagAfter cfg.current
          (slots.map (fun i => (i + cfg.offset) % 2 ^ 64)),
        x ≠ 0 ∧ (handleSlot cfg.localOffset cfg.flagCount cfg.GetBlock x).2 ≠ .fault) →
      ∃ more s', run cfg more s = some s' ∧ s'.finished = true ∧
        s'.pushed = beforeCutoff cfg.flagAfter cfg.current
          (slots.map (fun i => (i + cfg.offset) % 2 ^ 64))) := by
  have hplan := sendPlan_eq_beforeCutoff cfg.flagAfter cfg.current cfg.offset slots
  have hinv := run_init_plan cfg slots events s hrun
  refine ⟨⟨_, hplan ▸ hinv⟩, ?_, ?_, ?_, ?_⟩
  · intro hm
    rw [hm, hplan] at hinv
    simpa [MainState.plan] using hinv
  · intro x hx
    apply sendPlan_mem_bounds cfg.flagAfter cfg.current cfg.offset slots x
    rw [← hinv]
    exact List.mem_append_left _ hx
  · have := run_length_le cfg events _ _ hrun
    simp [Sys.weight, init, MainState.weight, WorkerState.weight] at this
    omega
  · intro hw hsafe
    rw [← hplan] at hsafe ⊢
    exact run_completes cfg slots events s hw hsafe hrun

/-- C3 (witness): one worker, owned slots `[5, 7, 120, 8]`, no lower bound, upper bound
`10`: after `5` and `7` are sent the slots sent are `[5, 7]`, the slots before the cutoff
slot `120`, and the run can be carried on until the process has finished. -/
theorem producer_hard_cutoff_witness :
    run oneWorker [.send 0, .handle 0, .send 0] (init oneWorker [5, 7, 120, 8])
      = some { main := .ranging [120, 8], pool := [.handling 7], pushed := [5, 7],
               aborted := false } ∧
    beforeCutoff oneWorker.flagAfter oneWorker.current
      ([5, 7, 120, 8].map (fun i => (i + oneWorker.offset) % 2 ^ 64)) = [5, 7] ∧
    (∀ x ∈ [5, 7], x ≤ oneWorker.current ∧ (oneWorker.flagAfter = 0 ∨ x ≥ oneWorker.flagAfter)) ∧
    (∃ more s', run oneWorker more
        { main := .ranging [120, 8], pool := [.handling 7], pushed := [5, 7],
          aborted := false } = some s' ∧
      s'.finished = true ∧
      s'.pushed = beforeCutoff oneWorker.flagAfter oneWorker.current
        ([5, 7, 120, 8].map (fun i => (i + oneWorker.offset) % 2 ^ 64))) :=
  have h := producer_hard_cutoff oneWorker [5, 7, 120, 8] [.send 0, .handle 0, .send 0]
    { main := .ranging [120, 8], pool := [.handling 7], pushed := [5, 7], aborted := false }
    (by decide)
  ⟨by decide, by decide, h.2.2.1,
    h.2.2.2.2 (by decide) (by
      intro x hx
      have hf : beforeCutoff oneWorker.flagAfter oneWorker.current
          ([5, 7, 120, 8].map (fun i => (i + oneWorker.offset) % 2 ^ 64)) = [5, 7] := by
        decide
      rw [hf] at hx
      have hx2 : x = 5 ∨ x = 7 := by simpa using hx
      rcases hx2 with rfl | rfl <;> decide)⟩

/-! ## Worker lemmas -/

theorem workerIter_some_ne_zero (localOffset : Int → Int) (flagCount : Bool)
    (GetBlock : Nat → FetchResult) (s : Nat) (hs : s ≠ 0) :
    workerIter localOffset flagCount GetBlock (some s)
      = handleSlot localOffset flagCount GetBlock s := by
  simp [workerIter, receive, hs]

/-- The per-slot handling never runs the worker's `return`. -/
theorem handleSlot_ne_done (localOffset : Int → Int) (flagCount : Bool)
    (GetBlock : Nat → FetchResult) (s : Nat) :
    (handleSlot localOffset flagCount GetBlock s).2 ≠ .done := by
  unfold handleSlot
  cases flagCount
  · simp
  · simp only [if_true]
    split
    · simp
    · split
      · simp
      · split
        · simp
        · split <;> simp

/-- An error that `errors.As` resolves to one of the two codes is a skip error. -/
theorem isSkipError_of_code {e : GoError} {rpcErr : RPCError} (has : errorsAs e = some rpcErr)
    (hcode : rpcErr.Code = -32007 ∨ rpcErr.Code = -32004) : isSkipError e = true := by
  unfold isSkipError
  rw [has]
  rcases hcode with h | h <;> simp [h]

/-- An error that `errors.As` does not resolve to one of the two codes is no skip error. -/
theorem isSkipError_of_not_code {e : GoError}
    (hcls : ∀ rpcErr, errorsAs e = some rpcErr →
      rpcErr.Code ≠ -32007 ∧ rpcErr.Code ≠ -32004) : isSkipError e = false := by
  unfold isSkipError
  cases h : errorsAs e with
  | none => rfl
  | some rpcErr =>
    obtain ⟨h1, h2⟩ := hcls rpcErr h
    simp [h1, h2]

/-- In count mode every per-slot outcome that writes does so as `Lock`, one write,
`Unlock`. -/
theorem handleSlot_count_locked (localOffset : Int → Int) (GetBlock : Nat → FetchResult)
    (s : Nat) :
    (∃ stream line,
      (handleSlot localOffset true GetBlock s).1 = [.Lock, .Write stream line, .Unlock]) ∨
    (handleSlot localOffset true GetBlock s).1 = [.Lock, .Unlock] ∨
    handleSlot localOffset true GetBlock s = ([], .fault) := by
  unfold handleSlot
  simp only [if_true]
  split
  · exact Or.inl ⟨_, _, rfl⟩
  · split
    · exact Or.inl ⟨_, _, rfl⟩
    · split
      · exact Or.inr (Or.inr rfl)
      · split
        · exact Or.inl ⟨_, _, rfl⟩
        · exact Or.inr (Or.inl rfl)

/-! ## Worker: claims -/

/-- C1 (counterexample): in count mode, slot `5`, a fetch that fails with an error holding
no RPC error and returns no block: the worker writes the empty notice for slot `5`. -/
theorem unclassified_error_counterexample :
    errorsAs (.other "connection refused") = none ∧
    workerIter (fun _ => 0) true
        (fun _ => { block := none, err := some (.other "connection refused") }) (some 5)
      = ([.Lock, .Write .Stderr (.empty 5), .Unlock], .next) ∧
    written (workerIter (fun _ => 0) true
        (fun _ => { block := none, err := some (.other "connection refused") }) (some 5)).1
      ≠ [] := by
  decide

/-- C1 (amended): in count mode, for every non-zero slot `s` whose block fetch fails with
an error that is not one of the two recoverable RPC codes and returns no block, the worker
emits exactly one empty notice for `s` on the error stream, under the output lock, no
skipped notice and no structured record, and goes on to the next dequeue. -/
theorem unclassified_error_empty_notice (localOffset : Int → Int)
    (GetBlock : Nat → FetchResult) (s : Nat) (e : GoError)
    (hs : s ≠ 0) (herr : (GetBlock s).err = some e)
    (hcls : ∀ rpcErr, errorsAs e = some rpcErr →
      rpcErr.Code ≠ -32007 ∧ rpcErr.Code ≠ -32004)
    (hnil : (GetBlock s).block = none) :
    workerIter localOffset true GetBlock (some s)
      = ([.Lock, .Write .Stderr (.empty s), .Unlock], .next) ∧
    written (workerIter localOffset true GetBlock (some s)).1 = [(.Stderr, .empty s)] := by
  have h : workerIter localOffset true GetBlock (some s)
      = ([.Lock, .Write .Stderr (.empty s), .Unlock], .next) := by
    rw [workerIter_some_ne_zero _ _ _ _ hs]
    simp [handleSlot, herr, hnil, isSkipError_of_not_code hcls]
  exact ⟨h, by rw [h]; rfl⟩

/-- C1 (witness): slot `110`, an RPC error with code `-32000`, no block. -/
theorem unclassified_error_empty_notice_witness :
    workerIter (fun _ => 0) true
        (fun _ => { block := none, err := some (.rpc { Code := -32000, Message := "busy" }) })
        (some 110)
      = ([.Lock, .Write .Stderr (.empty 110), .Unlock], .next) ∧
    written (workerIter (fun _ => 0) true
        (fun _ => { block := none, err := some (.rpc { Code := -32000, Message := "busy" }) })
        (some 110)).1 = [(.Stderr, .empty 110)] :=
  unclassified_error_empty_notice (fun _ => 0)
    (fun _ => { block := none, err := some (.rpc { Code := -32000, Message := "busy" }) })
    110 (.rpc { Code := -32000, Message := "busy" }) (by decide) rfl
    (by
      intro rpcErr h
      simp only [errorsAs, Option.some.injEq] at h
      subst h
      decide)
    rfl

/-- C4 (counterexample): slot `0` delivered on the open queue makes the worker return
without processing it; run on the deliveries `[0, 7]` the worker ends with `7` unread and
nothing written. -/
theorem worker_zero_slot_counterexample :
    workerIter (fun _ => 0) false (fun _ => { block := none, err := none }) (some 0)
      = ([], .done) ∧
    worker (fun _ => 0) false (fun _ => { block := none, err := none }) [0, 7]
      = ([], .done, [7]) := by
  decide

/-- C4 (amended): a worker leaves its loop if and only if the value its dequeue yields is
`0`. That is so on a closed, drained queue, and also when slot `0` is delivered on the open
queue; for every non-zero slot delivered the worker does not return but runs the per-slot
handling of that slot, and dequeues again when that handling ends the iteration. -/
theorem worker_done_iff_zero (localOffset : Int → Int) (flagCount : Bool)
    (GetBlock : Nat → FetchResult) :
    (∀ recv : Option Nat,
      (workerIter localOffset flagCount GetBlock recv).2 = .done ↔
        (recv = none ∨ recv = some 0)) ∧
    workerIter localOffset flagCount GetBlock none = ([], .done) ∧
    workerIter localOffset flagCount GetBlock (some 0) = ([], .done) ∧
    (∀ s : Nat, s ≠ 0 →
      workerIter localOffset flagCount GetBlock (some s)
        = handleSlot localOffset flagCount GetBlock s ∧
      (workerIter localOffset flagCount GetBlock (some s)).2 ≠ .done) ∧
    (∀ (s : Nat) (rest : List Nat) (acts : List Action), s ≠ 0 →
      handleSlot localOffset flagCount GetBlock s = (acts, .next) →
      worker localOffset flagCount GetBlock (s :: rest) =
        (acts ++ (worker localOffset flagCount GetBlock rest).1,
          (worker localOffset flagCount GetBlock rest).2.1,
          (worker localOffset flagCount GetBlock rest).2.2)) := by
  refine ⟨?_, rfl, rfl, ?_, ?_⟩
  · intro recv
    cases recv with
    | none => simp [workerIter, receive]
    | some v =>
      by_cases hv : v = 0
      · subst hv; simp [workerIter, receive]
      · rw [workerIter_some_ne_zero _ _ _ _ hv]
        simp [hv, handleSlot_ne_done]
  · intro s hs
    rw [workerIter_some_ne_zero _ _ _ _ hs]
    exact ⟨rfl, handleSlot_ne_done _ _ _ _⟩
  · intro s rest acts hs h
    simp only [worker]
    rw [workerIter_some_ne_zero _ _ _ _ hs, h]

/-- C5 (failing input): with count mode disabled the worker writes the block-reference line
of the received slot without taking the output lock, for every slot; for slot `5` the
action list is the single write, which is not a locked write. -/
theorem blockRef_written_unlocked :
    (∀ (localOffset : Int → Int) (GetBlock : Nat → FetchResult) (slot : Nat),
      handleSlot localOffset false GetBlock slot
        = ([.Write .Stdout (.blockRef slot)], .next)) ∧
    workerIter (fun _ => 0) false (fun _ => { block := none, err := none }) (some 5)
      = ([.Write .Stdout (.blockRef 5)], .next) ∧
    writesLocked false
      (workerIter (fun _ => 0) false (fun _ => { block := none, err := none }) (some 5)).1
        = false :=
  ⟨fun _ _ _ => rfl, by decide, by decide⟩

/-- C6 (failing input): in count mode, slot `5`, a fetch that returns no error and a block
whose block time is absent: the worker dereferences the nil block time and faults; run on
the deliveries `[5, 6]` the worker ends faulted with `6` unread. -/
theorem nil_blockTime_faults :
    workerIter (fun _ => 0) true
        (fun _ => { block := some { BlockTime := none, Transactions := [] }, err := none })
        (some 5)
      = ([], .fault) ∧
    worker (fun _ => 0) true
        (fun _ => { block := some { BlockTime := none, Transactions := [] }, err := none })
        [5, 6]
      = ([], .fault, [6]) := by
  decide

/-- C7: in count mode, for every non-zero slot `s` whose block fetch fails with an RPC error
of code `-32007` or `-32004`, the worker emits exactly one skipped notice for `s`, the line
`slot=<s> skipped=true` on the error stream, emits no structured record and no empty notice,
and continues with the next dequeue. -/
theorem recoverable_error_skipped_notice (localOffset : Int → Int)
    (GetBlock : Nat → FetchResult) (s : Nat)
    (e : GoError) (rpcErr : RPCError) (hs : s ≠ 0) (herr : (GetBlock s).err = some e)
    (has : errorsAs e = some rpcErr)
    (hcode : rpcErr.Code = -32007 ∨ rpcErr.Code = -32004) :
    workerIter localOffset true GetBlock (some s)
      = ([.Lock, .Write .Stderr (.skipped s), .Unlock], .next) ∧
    written (workerIter localOffset true GetBlock (some s)).1 = [(.Stderr, .skipped s)] ∧
    Line.text (.skipped s) = some ("slot=" ++ toString s ++ " skipped=true\n") := by
  have h : workerIter localOffset true GetBlock (some s)
      = ([.Lock, .Write .Stderr (.skipped s), .Unlock], .next) := by
    rw [workerIter_some_ne_zero _ _ _ _ hs]
    simp [handleSlot, herr, isSkipError_of_code has hcode]
  exact ⟨h, by rw [h]; rfl, rfl⟩

/-- C7 (witness): scenario C, slot `110` with the slot-skipped code, whatever block comes
with the error, yields exactly the skipped notice of slot `110`. -/
theorem recoverable_error_skipped_notice_witness :
    (workerIter (fun _ => 0) true
        (fun _ => { block := some { BlockTime := none, Transactions := [] },
                    err := some (.rpc { Code := -32007, Message := "skipped" }) })
        (some 110)
      = ([.Lock, .Write .Stderr (.skipped 110), .Unlock], .next) ∧
    written (workerIter (fun _ => 0) true
        (fun _ => { block := some { BlockTime := none, Transactions := [] },
                    err := some (.rpc { Code := -32007, Message := "skipped" }) })
        (some 110)).1 = [(.Stderr, .skipped 110)] ∧
    Line.text (.skipped 110) = some ("slot=" ++ toString 110 ++ " skipped=true\n")) ∧
    Line.text (.skipped 110) = some "slot=110 skipped=true\n" :=
  ⟨recoverable_error_skipped_notice (fun _ => 0)
      (fun _ => { block := some { BlockTime := none, Transactions := [] },
                  err := some (.rpc { Code := -32007, Message := "skipped" }) })
      110 (.rpc { Code := -32007, Message := "skipped" })
      { Code := -32007, Message := "skipped" } (by decide) rfl rfl (Or.inl rfl),
    by decide⟩

/-- C8 (counterexample): in count mode, local time UTC, slot `120`, a fetch that returns no
error and a block of `42` transactions with block time `1000000000000`, an instant of the
year `33658`: the record does not marshal and the worker writes nothing, taking and
releasing the lock only. -/
theorem success_unencodable_counterexample :
    (timeUnix (fun _ => 0) 1000000000000).Year = 33658 ∧
    workerIter (fun _ => 0) true
        (fun _ => { block := some { BlockTime := some 1000000000000,
                                    Transactions := List.replicate 42 { Slot := 120 } },
                    err := none })
        (some 120)
      = ([.Lock, .Unlock], .next) ∧
    written (workerIter (fun _ => 0) true
        (fun _ => { block := some { BlockTime := some 1000000000000,
                                    Transactions := List.replicate 42 { Slot := 120 } },
                    err := none })
        (some 120)).1 = [] := by
  decide

/-- C8 (amended): in count mode, for every non-zero slot `s` whose block fetch returns no
error and a block with `n` transactions and a block time `T` (Unix seconds) that lies, in
local time, within the years `0` to `9999`, the zone offset being below a day, the worker
emits exactly one structured record with `TS = T`, `Slot = s` and `NumTx = n` on the primary
stream, and no skipped or empty notice. -/
theorem success_structured_record (localOffset : Int → Int) (GetBlock : Nat → FetchResult)
    (s : Nat) (block : GetBlockResult) (T : Int) (n : Nat) (hs : s ≠ 0)
    (herr : (GetBlock s).err = none) (hblock : (GetBlock s).block = some block)
    (htime : block.BlockTime = some T) (hlen : block.Transactions.length = n)
    (hyear : -62167219200 ≤ T + localOffset T ∧ T + localOffset T ≤ 253402300799)
    (hzone : -86400 < localOffset T ∧ localOffset T < 86400) :
    workerIter localOffset true GetBlock (some s)
      = ([.Lock,
          .Write .Stdout (.record
            { TS := { sec := T, nsec := 0, zone := localOffset T }, Slot := s, NumTx := n }),
          .Unlock], .next) ∧
    written (workerIter localOffset true GetBlock (some s)).1
      = [(.Stdout, .record
            { TS := { sec := T, nsec := 0, zone := localOffset T }, Slot := s, NumTx := n })] := by
  have hm := timeUnix_marshals localOffset T hyear hzone
  have h : workerIter localOffset true GetBlock (some s)
      = ([.Lock,
          .Write .Stdout (.record
            { TS := { sec := T, nsec := 0, zone := localOffset T }, Slot := s, NumTx := n }),
          .Unlock], .next) := by
    rw [workerIter_some_ne_zero _ _ _ _ hs]
    simp only [timeUnix] at hm
    simp [handleSlot, herr, hblock, htime, hlen, logLine.encodes, timeUnix, hm]
  exact ⟨h, by rw [h]; rfl⟩

/-- C8 (witness): scenario D, slot `120`, a block of `42` transactions with block time
`1700000000`, local time one hour east of UTC, yields exactly the record
`{TS: 1700000000, Slot: 120, NumTx: 42}`. -/
theorem success_structured_record_witness :
    workerIter (fun _ => 3600) true
        (fun _ => { block := some { BlockTime := some 1700000000,
                                    Transactions := List.replicate 42 { Slot := 120 } },
                    err := none })
        (some 120)
      = ([.Lock,
          .Write .Stdout (.record
            { TS := { sec := 1700000000, nsec := 0, zone := 3600 }, Slot := 120, NumTx := 42 }),
          .Unlock], .next) ∧
    written (workerIter (fun _ => 3600) true
        (fun _ => { block := some { BlockTime := some 1700000000,
                                    Transactions := List.replicate 42 { Slot := 120 } },
                    err := none })
        (some 120)).1
      = [(.Stdout, .record
            { TS := { sec := 1700000000, nsec := 0, zone := 3600 }, Slot := 120,
              NumTx := 42 })] :=
  success_structured_record (fun _ => 3600)
    (fun _ => { block := some { BlockTime := some 1700000000,
                                Transactions := List.replicate 42 { Slot := 120 } },
                err := none })
    120 { BlockTime := some 1700000000, Transactions := List.replicate 42 { Slot := 120 } }
    1700000000 42 (by decide) rfl rfl rfl (by simp) (by decide) (by decide)

end Txcount
